import Mathlib

/-!
Shallow embedding of `src/lib.rs` of finch-frontend-api: the namespace-scoped
AST walker and identifier-grammar decoder that turns a tree of C/C++
declaration entities into a table of class descriptors.

Modelling conventions:
* Rust `String` / `&str` become Lean `String`.
* `clang::Type` handles become the inductive `RawType`; `get_canonical_type`
  (total in libclang, returning the type itself when it is already canonical)
  is modelled by storing `Option RawType`, `Option.none` meaning "canonical
  form is the type itself"; `PartialEq` on type handles is structural equality.
* `clang::TypeKind` is modelled as an opaque numeric tag (`Nat`).
* Rust panics (`unwrap` on `None`, out-of-bounds indexing, `expect`) are
  modelled by returning `Option.none` from the processing functions: a `none`
  result means the whole run aborts.
* `log::warn!` side effects are modelled by accumulating `Warning` values.
* `HashMap<String, FinchClass>` is modelled as an association list
  `List (String × FinchClass)` with first-match lookup.
* `str::split("___")` is modelled by `splitU`, a character-level scan that
  splits at each leftmost non-overlapping occurrence of three underscores,
  matching Rust `str::split` semantics; `str::starts_with` by `hasFinchPrefix`.
-/

/-- Rust `s.split("___")`: scan the characters left to right, emitting a field
at every non-overlapping occurrence of `___`. `acc` holds the current field,
reversed. -/
def splitUAux : List Char → List Char → List String
  | [], acc => [String.mk acc.reverse]
  | '_' :: '_' :: '_' :: rest, acc => String.mk acc.reverse :: splitUAux rest []
  | c :: rest, acc => splitUAux rest (c :: acc)

/-- Rust `s.split("___").collect::<Vec<&str>>()`. -/
def splitU (s : String) : List String := splitUAux s.data []

/-- Rust `s.starts_with("___finch_bindgen")`. -/
def hasFinchPrefix (s : String) : Bool :=
  List.isPrefixOf "___finch_bindgen".data s.data

/-- Model of a `clang::Type` handle: display name, kind tag, optional pointee
type, canonical type (`Option.none` = the type is its own canonical form), and
the result of the fallible `get_sizeof` query. -/
inductive RawType where
  | mk (display_name : String) (kind : Nat) (pointee : Option RawType)
       (canonical : Option RawType) (sz : Option Nat)

/-- Structural boolean equality on `RawType`, modelling `PartialEq` on
`clang::Type`. -/
def RawType.beq : RawType → RawType → Bool
  | .mk d1 k1 p1 c1 s1, .mk d2 k2 p2 c2 s2 =>
    d1 == d2 && k1 == k2 &&
    (match p1, p2 with
     | Option.none, Option.none => true
     | Option.some a, Option.some b => RawType.beq a b
     | _, _ => false) &&
    (match c1, c2 with
     | Option.none, Option.none => true
     | Option.some a, Option.some b => RawType.beq a b
     | _, _ => false) &&
    s1 == s2

theorem RawType.beq_eq_true_iff : ∀ a b : RawType, (RawType.beq a b = true) ↔ a = b := by
  have key : ∀ n, ∀ a b : RawType, sizeOf a ≤ n → ((RawType.beq a b = true) ↔ a = b) := by
    intro n
    induction n with
    | zero =>
      intro a _ h
      exact absurd h (by cases a; simp [RawType.mk.sizeOf_spec])
    | succ n ih =>
      rintro ⟨d1, k1, p1, c1, s1⟩ ⟨d2, k2, p2, c2, s2⟩ h
      have hb : ∀ o1 o2 : Option RawType, (∀ a ∈ o1, sizeOf a ≤ n) →
          (((match o1, o2 with
             | Option.none, Option.none => true
             | Option.some a, Option.some b => RawType.beq a b
             | _, _ => false) = true) ↔ o1 = o2) := by
        intro o1 o2 ho
        cases o1 with
        | none => cases o2 <;> simp
        | some a =>
          cases o2 with
          | none => simp
          | some b =>
            simp only [Option.some.injEq]
            exact ih a b (ho a rfl)
      have hp1 : ∀ a ∈ p1, sizeOf a ≤ n := by
        intro a ha
        cases p1 with
        | none => cases ha
        | some x =>
          cases ha
          simp [RawType.mk.sizeOf_spec, Option.some.sizeOf_spec] at h
          omega
      have hc1 : ∀ a ∈ c1, sizeOf a ≤ n := by
        intro a ha
        cases c1 with
        | none => cases ha
        | some x =>
          cases ha
          simp [RawType.mk.sizeOf_spec, Option.some.sizeOf_spec] at h
          omega
      unfold RawType.beq
      simp only [Bool.and_eq_true, RawType.mk.injEq, hb p1 p2 hp1, hb c1 c2 hc1]
      constructor
      · rintro ⟨⟨⟨⟨hd, hk⟩, hp⟩, hc⟩, hs⟩
        exact ⟨beq_iff_eq.mp hd, beq_iff_eq.mp hk, hp, hc, beq_iff_eq.mp hs⟩
      · rintro ⟨hd, hk, hp, hc, hs⟩
        exact ⟨⟨⟨⟨beq_iff_eq.mpr hd, beq_iff_eq.mpr hk⟩, hp⟩, hc⟩, beq_iff_eq.mpr hs⟩
  intro a b
  exact key (sizeOf a) a b (le_refl _)

instance : DecidableEq RawType := fun a b => decidable_of_iff _ (RawType.beq_eq_true_iff a b)

/-- Models `value.get_canonical_type()`: the stored canonical form, or the type itself
when it is already canonical. -/
def RawType.getCanonical : RawType → RawType
  | t@(.mk _ _ _ canonical _) => canonical.getD t

/-- Mirror of `struct FinchType` in `lib.rs`: the owned, serializable type
descriptor. -/
inductive FinchType where
  | mk (display_name : String) (kind : Nat) (pointee_type : Option FinchType)
       (canonical_type : Option FinchType) (sz : Option Nat)

def FinchType.display_name : FinchType → String
  | .mk d _ _ _ _ => d

def FinchType.kind : FinchType → Nat
  | .mk _ k _ _ _ => k

def FinchType.pointee_type : FinchType → Option FinchType
  | .mk _ _ p _ _ => p

def FinchType.canonical_type : FinchType → Option FinchType
  | .mk _ _ _ c _ => c

def FinchType.sz : FinchType → Option Nat
  | .mk _ _ _ _ s => s

/-- Embeds `impl From<Type> for FinchType` (`lib.rs` lines 20-40): read display name
and kind; recurse into the pointee if present; recurse into the canonical form
only when it differs from the surface type (in the source the comparison is
`canonical_type != value`; here the `Option.none` canonical field already
means "equal to the surface type", and a stored canonical form equal to the
whole type also produces an absent field, exactly as the guard in the source);
keep the fallible byte size as-is. -/
def FinchType.fromRaw : RawType → FinchType
  | .mk display_name kind pointee canonical sz =>
    .mk display_name kind
      (match pointee with
       | Option.some ty => Option.some (FinchType.fromRaw ty)
       | Option.none => Option.none)
      (match canonical with
       | Option.some c =>
         if c ≠ RawType.mk display_name kind pointee canonical sz then
           Option.some (FinchType.fromRaw c)
         else Option.none
       | Option.none => Option.none)
      sz

/-- One entry of the argument list of a function declaration: the display name
and type of the argument entity (the source unwraps both; the unwraps are
assumed to succeed in this model). -/
structure Arg where
  name : String
  type : RawType

/-- Mirror of `struct FinchNew`. -/
structure FinchNew where
  class_name : String
  fn_name : String
  c_fn_name : String
  arg_names : List String
  arg_types : List FinchType
  comments : Option String

/-- Embeds `FinchNew::new` (`lib.rs` lines 52-70): record the name and type of
every argument. -/
def FinchNew.new (class_name fn_name c_fn_name : String) (args : List Arg)
    (comment : Option String) : FinchNew :=
  { class_name, fn_name, c_fn_name,
    arg_names := args.map (fun a => a.name),
    arg_types := args.map (fun a => FinchType.fromRaw a.type),
    comments := comment }

/-- Mirror of `struct FinchDrop`. -/
structure FinchDrop where
  class_name : String
  fn_name : String
  c_fn_name : String

/-- Mirror of `struct FinchMethod`. -/
structure FinchMethod where
  class_name : String
  method_name : String
  fn_name : String
  c_fn_name : String
  ret_type : FinchType
  arg_names : List String
  arg_types : List FinchType
  comments : Option String
  consume : Bool

/-- Embeds `FinchMethod::new` (`lib.rs` lines 92-116): `args.remove(0)` drops the
receiver and panics on an empty argument list (modelled by `Option.none`);
the names and types of the remaining arguments are recorded in order. -/
def FinchMethod.new (class_name method_name fn_name c_fn_name : String)
    (consume : Bool) (args : List Arg) (result_type : RawType)
    (comment : Option String) : Option FinchMethod :=
  match args with
  | [] => Option.none
  | _ :: rest =>
    Option.some
      { class_name, method_name, fn_name, c_fn_name,
        ret_type := FinchType.fromRaw result_type,
        arg_names := rest.map (fun a => a.name),
        arg_types := rest.map (fun a => FinchType.fromRaw a.type),
        comments := comment, consume }

/-- Mirror of `struct FinchStatic`. -/
structure FinchStatic where
  class_name : String
  method_name : String
  fn_name : String
  c_fn_name : String
  ret_type : FinchType
  arg_names : List String
  arg_types : List FinchType
  comments : Option String

/-- Embeds `FinchStatic::new` (`lib.rs` lines 130-150). -/
def FinchStatic.new (class_name method_name fn_name c_fn_name : String)
    (args : List Arg) (result_type : RawType) (comment : Option String) :
    FinchStatic :=
  { class_name, method_name, fn_name, c_fn_name,
    ret_type := FinchType.fromRaw result_type,
    arg_names := args.map (fun a => a.name),
    arg_types := args.map (fun a => FinchType.fromRaw a.type),
    comments := comment }

/-- Mirror of `struct FinchGetter`. -/
structure FinchGetter where
  class_name : String
  field_name : String
  fn_name : String
  c_fn_name : String
  type_ : FinchType
  comments : Option String

/-- Embeds `FinchGetter::new` (`lib.rs` lines 162-173): the field type is the
result type of the declaration. -/
def FinchGetter.new (class_name field_name fn_name c_fn_name : String)
    (result_type : RawType) (comment : Option String) : FinchGetter :=
  { class_name, field_name, fn_name, c_fn_name,
    type_ := FinchType.fromRaw result_type,
    comments := comment }

/-- Mirror of `struct FinchSetter`. -/
structure FinchSetter where
  class_name : String
  field_name : String
  fn_name : String
  c_fn_name : String
  type_ : FinchType
  comments : Option String

/-- Embeds `FinchSetter::new` (`lib.rs` lines 185-196): the field type is read from
`get_arguments().unwrap()[1]`, the second argument; the unguarded index panics
when fewer than two arguments are present (modelled by `Option.none`). -/
def FinchSetter.new (class_name field_name fn_name c_fn_name : String)
    (args : List Arg) (comment : Option String) : Option FinchSetter :=
  match args.get? 1 with
  | Option.none => Option.none
  | Option.some a =>
    Option.some
      { class_name, field_name, fn_name, c_fn_name,
        type_ := FinchType.fromRaw a.type,
        comments := comment }

/-- Mirror of `struct FinchClass`. -/
structure FinchClass where
  name : String
  c_name : String
  comments : Option String
  new : Option FinchNew
  drop : Option FinchDrop
  statics : List FinchStatic
  methods : List FinchMethod
  getters : List FinchGetter
  setters : List FinchSetter

/-- Embeds `FinchClass::new` (`lib.rs` lines 211-225); named `make` because the
structure already has a field called `new`. -/
def FinchClass.make (name c_name : String) (comment : Option String) :
    FinchClass :=
  { name, c_name, comments := comment,
    new := Option.none, drop := Option.none,
    statics := [], methods := [], getters := [], setters := [] }

/-- Mirror of `struct ParserState`. -/
structure ParserState where
  in_finch : Bool
  in_internal : Bool
  namespace_ : Option String
  classes : List (String × FinchClass)

/-- One `log::warn!` event emitted by the walker. -/
inductive Warning where
  | unknownNamespace (name : String)
  | unknownIdentifier (name : String)
  | namespaceMismatch (expected got : String)

/-- Models `state.classes.get_mut(&name)` as first-match association-list lookup. -/
def lookupClass (classes : List (String × FinchClass)) (k : String) :
    Option FinchClass :=
  (classes.find? (fun p => p.1 == k)).map (fun p => p.2)

/-- Writing through the `get_mut` reference: replace the value stored under
`k`. -/
def updateClass (classes : List (String × FinchClass)) (k : String)
    (v : FinchClass) : List (String × FinchClass) :=
  classes.map (fun p => if p.1 == k then (k, v) else p)

/-- Models `state.classes.entry(name).or_insert(v)`: insert only when absent. -/
def entryOrInsert (classes : List (String × FinchClass)) (k : String)
    (v : FinchClass) : List (String × FinchClass) :=
  match classes.find? (fun p => p.1 == k) with
  | Option.some _ => classes
  | Option.none => classes ++ [(k, v)]

/-- The declaration entities the walker dispatches on (`EntityKind` values it
matches; everything else is `other`). A namespace or translation unit carries
its children; a type alias carries `get_name()`, `get_display_name()` and its
comment; a function declaration carries `get_name()`, the argument list, the
result type and its comment. -/
inductive Entity where
  | translationUnit (children : List Entity)
  | namespaceE (display_name : String) (children : List Entity)
  | unexposedDecl (children : List Entity)
  | typeAliasDecl (name : String) (display_name : String)
      (comment : Option String)
  | functionDecl (name : String) (args : List Arg) (result_type : RawType)
      (comment : Option String)
  | other

mutual

/-- Embeds `process_entity` (`lib.rs` lines 240-376). The result is the updated state
together with the warnings emitted, or `Option.none` when the run aborts
(an `unwrap`/index panic or the fatal `expect` on a missing class). -/
def process_entity (state : ParserState) :
    Entity → Option (ParserState × List Warning)
  | .translationUnit children => process_list state children
  | .namespaceE dn children =>
    if !state.in_finch && dn == "finch" then
      process_list { state with in_finch := true } children
    else if !state.in_internal && dn == "bindgen" then
      process_list { state with in_internal := true } children
    else if state.in_finch && state.in_internal && state.namespace_.isNone then
      process_list { state with namespace_ := Option.some dn } children
    else if state.in_finch then
      Option.some (state, [Warning.unknownNamespace dn])
    else
      Option.some (state, [])
  | .unexposedDecl children =>
    if state.in_finch && state.in_internal then
      process_list state children
    else
      Option.some (state, [])
  | .typeAliasDecl ty_name display_name comment =>
    if !state.in_finch || !state.in_internal then
      Option.some (state, [])
    else if !(hasFinchPrefix ty_name) then
      Option.some (state, [Warning.unknownIdentifier ty_name])
    else
      let parts := splitU ty_name
      match parts.get? 2 with
      | Option.none => Option.none
      | Option.some p2 =>
        match state.namespace_ with
        | Option.none => Option.none
        | Option.some ns =>
          if p2 ≠ ns then
            match parts.get? 3 with
            | Option.none => Option.none
            | Option.some p3 =>
              Option.some (state, [Warning.namespaceMismatch ns p3])
          else
            match parts.get? 3 with
            | Option.none => Option.none
            | Option.some p3 =>
              if p3 ≠ "class" then
                Option.some (state, [Warning.unknownIdentifier p3])
              else
                match parts.get? 4 with
                | Option.none => Option.none
                | Option.some p4 =>
                  Option.some
                    ({ state with
                        classes := entryOrInsert state.classes p4
                          (FinchClass.make p4
                            ("finch::bindgen::" ++ ns ++ "::" ++ display_name)
                            comment) },
                     [])
  | .functionDecl c_fn_name args result_type comment =>
    if !state.in_finch || !state.in_internal then
      Option.some (state, [])
    else if !(hasFinchPrefix c_fn_name) then
      Option.some (state, [Warning.unknownIdentifier c_fn_name])
    else
      let parts := splitU c_fn_name
      match parts.get? 2 with
      | Option.none => Option.none
      | Option.some p2 =>
        match state.namespace_ with
        | Option.none => Option.none
        | Option.some ns =>
          if p2 ≠ ns then
            match parts.get? 3 with
            | Option.none => Option.none
            | Option.some p3 =>
              Option.some (state, [Warning.namespaceMismatch ns p3])
          else
            match parts.get? 3 with
            | Option.none => Option.none
            | Option.some p3 =>
              if p3 ≠ "class" then
                Option.some (state, [Warning.unknownIdentifier p3])
              else
                let fn_name := "finch::bindgen::" ++ ns ++ "::" ++ c_fn_name
                match parts.get? 4 with
                | Option.none => Option.none
                | Option.some p4 =>
                  match lookupClass state.classes p4 with
                  | Option.none => Option.none
                  | Option.some cls =>
                    match parts.get? 5 with
                    | Option.none => Option.none
                    | Option.some p5 =>
                      if p5 = "drop" then
                        Option.some
                          ({ state with
                              classes := updateClass state.classes p4
                                { cls with
                                    drop := Option.some
                                      { class_name := p4, fn_name,
                                        c_fn_name } } },
                           [])
                      else if p5 = "method" then
                        match parts.get? 6 with
                        | Option.none => Option.none
                        | Option.some p6 =>
                          match FinchMethod.new p4 p6 fn_name c_fn_name false
                              args result_type comment with
                          | Option.none => Option.none
                          | Option.some m =>
                            Option.some
                              ({ state with
                                  classes := updateClass state.classes p4
                                    { cls with
                                        methods := cls.methods ++ [m] } },
                               [])
                      else if p5 = "method_consume" then
                        match parts.get? 6 with
                        | Option.none => Option.none
                        | Option.some p6 =>
                          match FinchMethod.new p4 p6 fn_name c_fn_name true
                              args result_type comment with
                          | Option.none => Option.none
                          | Option.some m =>
                            Option.some
                              ({ state with
                                  classes := updateClass state.classes p4
                                    { cls with
                                        methods := cls.methods ++ [m] } },
                               [])
                      else if p5 = "static" then
                        match parts.get? 6 with
                        | Option.none => Option.none
                        | Option.some p6 =>
                          if p6 = "new" then
                            Option.some
                              ({ state with
                                  classes := updateClass state.classes p4
                                    { cls with
                                        new := Option.some
                                          (FinchNew.new p4 fn_name c_fn_name
                                            args comment) } },
                               [])
                          else
                            Option.some
                              ({ state with
                                  classes := updateClass state.classes p4
                                    { cls with
                                        statics := cls.statics ++
                                          [FinchStatic.new p4 p6 fn_name
                                            c_fn_name args result_type
                                            comment] } },
                               [])
                      else if p5 = "getter" then
                        match parts.get? 6 with
                        | Option.none => Option.none
                        | Option.some p6 =>
                          Option.some
                            ({ state with
                                classes := updateClass state.classes p4
                                  { cls with
                                      getters := cls.getters ++
                                        [FinchGetter.new p4 p6 fn_name
                                          c_fn_name result_type comment] } },
                             [])
                      else if p5 = "setter" then
                        match parts.get? 6 with
                        | Option.none => Option.none
                        | Option.some p6 =>
                          match FinchSetter.new p4 p6 fn_name c_fn_name args
                              comment with
                          | Option.none => Option.none
                          | Option.some st =>
                            Option.some
                              ({ state with
                                  classes := updateClass state.classes p4
                                    { cls with
                                        setters := cls.setters ++ [st] } },
                               [])
                      else
                        Option.some (state, [Warning.unknownIdentifier p5])
  | .other => Option.some (state, [])

/-- Embeds `process_children` (`lib.rs` lines 234-238): process the children in
order, threading the state and concatenating warnings. -/
def process_list (state : ParserState) :
    List Entity → Option (ParserState × List Warning)
  | [] => Option.some (state, [])
  | e :: rest =>
    match process_entity state e with
    | Option.none => Option.none
    | Option.some (s1, w1) =>
      match process_list s1 rest with
      | Option.none => Option.none
      | Option.some (s2, w2) => Option.some (s2, w1 ++ w2)

end

/-- The initial state built in `generate` (`lib.rs` lines 463-468). -/
def initState : ParserState :=
  { in_finch := false, in_internal := false, namespace_ := Option.none,
    classes := [] }

/-! Concrete sample values used by the scenario theorems and witnesses. -/

/-- A plain builtin type with no pointee and no distinct canonical form. -/
def voidT : RawType := .mk "void" 2 Option.none Option.none Option.none

/-- A plain builtin type. -/
def intT : RawType := .mk "int" 17 Option.none Option.none (Option.some 4)

/-- A type alias whose canonical form (`intT`) differs from itself. -/
def aliasT : RawType :=
  .mk "MyInt" 111 Option.none (Option.some intT) (Option.some 4)

/-- A receiver-style pointer argument. -/
def argRecv : Arg := { name := "self", type := .mk "Widget *" 101 (Option.some voidT) Option.none (Option.some 8) }

/-- An `int`-typed value argument. -/
def argVal : Arg := { name := "value", type := intT }

/-- C9: for every type handle, the canonical field of the built descriptor is
absent exactly when the canonical form of the type equals the type itself;
when it differs, the field holds the recursively built descriptor of the
canonical form. -/
theorem C9_canonical_absent_iff (t : RawType) :
    ((FinchType.fromRaw t).canonical_type = Option.none ↔
      RawType.getCanonical t = t) ∧
    (RawType.getCanonical t ≠ t →
      (FinchType.fromRaw t).canonical_type =
        Option.some (FinchType.fromRaw (RawType.getCanonical t))) := by
  cases t with
  | mk d k po co sz =>
    cases co with
    | none =>
      constructor
      · constructor
        · intro _; rfl
        · intro _
          unfold FinchType.fromRaw
          simp [FinchType.canonical_type]
      · intro h
        exact absurd rfl h
    | some c =>
      have hg : RawType.getCanonical (RawType.mk d k po (Option.some c) sz) = c := rfl
      rw [hg]
      have hne : c ≠ RawType.mk d k po (Option.some c) sz := by
        intro h
        have hlt : sizeOf c < sizeOf (RawType.mk d k po (Option.some c) sz) := by
          simp only [RawType.mk.sizeOf_spec, Option.some.sizeOf_spec]
          omega
        rw [← h] at hlt
        omega
      have hsome :
          (FinchType.fromRaw (RawType.mk d k po (Option.some c) sz)).canonical_type =
            Option.some (FinchType.fromRaw c) := by
        unfold FinchType.fromRaw
        simp [FinchType.canonical_type, hne]
        rw [FinchType.fromRaw.eq_def]
        rcases c with ⟨d2, k2, po2, co2, sz2⟩
        cases co2 <;> simp [ne_eq, ite_not]
      exact ⟨by simp [hsome, hne], fun _ => hsome⟩

/-- Witness for C9 at a concrete alias type whose canonical form differs. -/
theorem C9_witness :
    RawType.getCanonical aliasT ≠ aliasT ∧
    (FinchType.fromRaw aliasT).canonical_type =
      Option.some (FinchType.fromRaw (RawType.getCanonical aliasT)) :=
  ⟨by decide, (C9_canonical_absent_iff aliasT).2 (by decide)⟩

/-- C8: a Method built from an argument list `recv :: rest` records exactly
the names and types of `rest` (one leading receiver stripped, order kept),
and building a Method from an empty argument list aborts the run. -/
theorem C8_method_receiver_strip (class_name method_name fn_name c_fn_name : String)
    (consume : Bool) (recv : Arg) (rest : List Arg) (rt : RawType)
    (comment : Option String) :
    (∃ m, FinchMethod.new class_name method_name fn_name c_fn_name consume
        (recv :: rest) rt comment = Option.some m ∧
      m.arg_names = rest.map (fun a => a.name) ∧
      m.arg_types = rest.map (fun a => FinchType.fromRaw a.type)) ∧
    FinchMethod.new class_name method_name fn_name c_fn_name consume [] rt
      comment = Option.none :=
  ⟨⟨_, rfl, rfl, rfl⟩, rfl⟩

/-- C10: building a Setter descriptor reads the second argument without a
bounds check: fewer than two arguments aborts the run (index panic, no
warning), and with at least two arguments the recorded field type is built
from the argument at index 1, never from the receiver at index 0. -/
theorem C10_setter_second_argument (class_name field_name fn_name c_fn_name : String)
    (comment : Option String) :
    (∀ args : List Arg, args.length < 2 →
      FinchSetter.new class_name field_name fn_name c_fn_name args comment =
        Option.none) ∧
    (∀ (a0 a1 : Arg) (rest : List Arg),
      ∃ st, FinchSetter.new class_name field_name fn_name c_fn_name
          (a0 :: a1 :: rest) comment = Option.some st ∧
        st.type_ = FinchType.fromRaw a1.type) := by
  constructor
  · intro args h
    match args with
    | [] => rfl
    | [a] => rfl
    | a :: b :: rest => simp [List.length_cons] at h; omega
  · intro a0 a1 rest
    exact ⟨_, rfl, rfl⟩

/-- Witness for C10: with no arguments the setter build aborts; with a
receiver and an `int` argument the recorded type is the one built from the
`int` argument. -/
theorem C10_witness :
    FinchSetter.new "Widget" "count" "f" "c" [] Option.none = Option.none ∧
    ∃ st, FinchSetter.new "Widget" "count" "f" "c" [argRecv, argVal]
        Option.none = Option.some st ∧
      st.type_ = FinchType.fromRaw argVal.type :=
  ⟨(C10_setter_second_argument "Widget" "count" "f" "c" Option.none).1 []
      (by decide),
   (C10_setter_second_argument "Widget" "count" "f" "c" Option.none).2
      argRecv argVal []⟩

/-- C4: an eligible function declaration (prefix, matching package field,
`class` at field 3) whose class name at field 4 is not in the table aborts
the whole run (the `expect` panic), before any member-category dispatch. -/
theorem C4_missing_class_fatal (s : ParserState) (hf : s.in_finch = true)
    (hi : s.in_internal = true) (ns : String)
    (hns : s.namespace_ = Option.some ns)
    (name : String) (args : List Arg) (rt : RawType) (comment : Option String)
    (hpre : hasFinchPrefix name = true)
    (h2 : (splitU name).get? 2 = Option.some ns)
    (h3 : (splitU name).get? 3 = Option.some "class")
    (X : String) (h4 : (splitU name).get? 4 = Option.some X)
    (hmiss : lookupClass s.classes X = Option.none) :
    process_entity s (.functionDecl name args rt comment) = Option.none := by
  unfold process_entity
  simp only [hf, hi, hpre, h2, hns, h3, h4, hmiss, Bool.not_true, Bool.or_self,
    Bool.false_eq_true, if_false]
  simp

/-- Witness for C4: the out-of-order `Gadget` member scenario aborts from an
empty class table. -/
theorem C4_witness :
    process_entity
      { in_finch := true, in_internal := true,
        namespace_ := Option.some "pkg", classes := [] }
      (.functionDecl "___finch_bindgen___pkg___class___Gadget___method___poke"
        [argRecv] voidT Option.none) = Option.none :=
  C4_missing_class_fatal _ rfl rfl "pkg" rfl _ _ _ _ (by decide) (by decide)
    (by decide) "Gadget" (by decide) rfl

/-- C1 (counterexample to the claim as stated): a type alias whose identifier
is exactly the bare prefix (its split has only two fields) aborts the run
instead of being warned about and skipped. -/
theorem C1_counterexample :
    process_entity
      { in_finch := true, in_internal := true,
        namespace_ := Option.some "pkg", classes := [] }
      (.typeAliasDecl "___finch_bindgen" "x" Option.none) = Option.none := rfl

/-- C1 (amended): a declaration inside the active namespaces whose identifier
starts with the fixed prefix but whose split yields too few fields for the
first indexed position aborts the whole run with an index panic; no warning
is logged and the traversal does not continue. -/
theorem C1_short_identifier_panics (s : ParserState) (hf : s.in_finch = true)
    (hi : s.in_internal = true) (name dn : String) (comment : Option String)
    (args : List Arg) (rt : RawType)
    (hpre : hasFinchPrefix name = true)
    (hshort : (splitU name).length ≤ 2) :
    process_entity s (.typeAliasDecl name dn comment) = Option.none ∧
    process_entity s (.functionDecl name args rt comment) = Option.none := by
  have h2 : (splitU name).get? 2 = Option.none := List.get?_eq_none.mpr hshort
  constructor <;>
  · unfold process_entity
    simp only [hf, hi, hpre, h2, Bool.not_true, Bool.or_self,
      Bool.false_eq_true, if_false]

/-- Witness for C1 at the bare-prefix identifier. -/
theorem C1_witness :
    process_entity
      { in_finch := true, in_internal := true,
        namespace_ := Option.some "pkg", classes := [] }
      (.typeAliasDecl "___finch_bindgen" "y" Option.none) = Option.none ∧
    process_entity
      { in_finch := true, in_internal := true,
        namespace_ := Option.some "pkg", classes := [] }
      (.functionDecl "___finch_bindgen" [] voidT Option.none) = Option.none :=
  C1_short_identifier_panics _ rfl rfl _ "y" _ _ _ (by decide) (by decide)

/-- C2 (counterexample to the claim as stated): a namespace named `bindgen`
reached before `finch` is entered — the internal flag is set and the state
changes, because the second branch of the namespace dispatch never checks the
root flag. -/
theorem C2_counterexample :
    process_entity initState (.namespaceE "bindgen" []) =
      Option.some ({ initState with in_internal := true }, []) ∧
    ({ initState with in_internal := true } : ParserState) ≠ initState := by
  refine ⟨rfl, ?_⟩
  intro h
  have hfield := congrArg ParserState.in_internal h
  simp [initState] at hfield

/-- C2 (amended): before the root namespace is entered, a namespace whose
name is neither the root marker nor (when the internal flag is still unset)
the internal marker is skipped silently: no recursion, no state change, no
warning. A namespace named `bindgen` seen before `finch` is entered, since
the internal-marker branch does not consult the root flag. -/
theorem C2_preroot_silent_skip (s : ParserState) (hf : s.in_finch = false)
    (dn : String) (children : List Entity)
    (hroot : dn ≠ "finch") (hint : dn = "bindgen" → s.in_internal = true) :
    process_entity s (.namespaceE dn children) = Option.some (s, []) := by
  unfold process_entity
  by_cases hb : dn = "bindgen"
  · have hi := hint hb
    simp [hf, hroot, hb, hi]
  · simp [hf, hroot, hb]

/-- Witness for C2 at a namespace named `other` in the initial state. -/
theorem C2_witness :
    process_entity initState (.namespaceE "other" []) =
      Option.some (initState, []) :=
  C2_preroot_silent_skip initState rfl "other" [] (by decide)
    (fun h => absurd h (by decide))

/-- C3 (counterexample to the claim as stated): with both namespace flags set
but no package namespace recorded, a prefixed type alias does not return
silently — the unwrap of the recorded namespace panics and the run aborts. -/
theorem C3_counterexample :
    process_entity
      { in_finch := true, in_internal := true,
        namespace_ := Option.none, classes := [] }
      (.typeAliasDecl "___finch_bindgen___pkg___class___W" "W" Option.none) =
      Option.none := rfl

/-- C3 (amended): a type-alias or function declaration reached while either
namespace flag is unset is ignored (immediate return, no warning, state
unchanged) regardless of the recorded package namespace; but when both flags
are set and the package namespace is still unrecorded, a declaration whose
identifier carries the fixed prefix aborts the run at the namespace unwrap. -/
theorem C3_unscoped_declarations (s : ParserState) (name dn : String)
    (comment : Option String) (args : List Arg) (rt : RawType) :
    ((s.in_finch = false ∨ s.in_internal = false) →
      process_entity s (.typeAliasDecl name dn comment) =
        Option.some (s, []) ∧
      process_entity s (.functionDecl name args rt comment) =
        Option.some (s, [])) ∧
    (s.in_finch = true → s.in_internal = true →
      s.namespace_ = Option.none → hasFinchPrefix name = true →
      process_entity s (.typeAliasDecl name dn comment) = Option.none ∧
      process_entity s (.functionDecl name args rt comment) = Option.none) := by
  constructor
  · intro hflag
    constructor <;>
    · unfold process_entity
      rcases hflag with hf | hi
      · simp [hf]
      · simp [hi]
  · intro hf hi hns hpre
    constructor <;>
    · unfold process_entity
      simp only [hf, hi, hpre, hns, Bool.not_true, Bool.or_self,
        Bool.false_eq_true, if_false]
      cases (splitU name).get? 2 <;> simp

/-- Declaration tree of the constructor-only scenario exactly as the claim
words it: the type-alias identifier has no package field. -/
def widgetTreeClaim : Entity :=
  .translationUnit [
    .namespaceE "finch" [
      .namespaceE "bindgen" [
        .namespaceE "pkg" [
          .typeAliasDecl "___finch_bindgen___class___Widget"
            "___finch_bindgen___class___Widget" Option.none,
          .functionDecl "___finch_bindgen___pkg___class___Widget___static___new"
            [] voidT Option.none]]]]

/-- Declaration tree of the constructor-only scenario with the package field
present in the type-alias identifier. -/
def widgetTree : Entity :=
  .translationUnit [
    .namespaceE "finch" [
      .namespaceE "bindgen" [
        .namespaceE "pkg" [
          .typeAliasDecl "___finch_bindgen___pkg___class___Widget"
            "___finch_bindgen___pkg___class___Widget" Option.none,
          .functionDecl "___finch_bindgen___pkg___class___Widget___static___new"
            [] voidT Option.none]]]]

set_option maxRecDepth 10000 in
/-- C5 (counterexample to the claim as stated): with the literal identifiers
of the claim, the alias `___finch_bindgen___class___Widget` fails the package
check (its field 2 is `class`), is skipped with a warning, and the subsequent
constructor declaration then aborts the run on the missing `Widget` class; no
output with a `Widget` descriptor is produced. -/
theorem C5_counterexample :
    process_entity initState widgetTreeClaim = Option.none := rfl

set_option maxRecDepth 10000 in
/-- C5 (amended): with the package field present in the alias identifier,
the scenario produces exactly one class `Widget` whose constructor slot is
set and whose destructor slot and statics, methods, getters and setters are
all empty. -/
theorem C5_constructor_only_scenario :
    process_entity initState widgetTree =
      Option.some
        ({ in_finch := true, in_internal := true,
           namespace_ := Option.some "pkg",
           classes := [("Widget",
             { name := "Widget",
               c_name := "finch::bindgen::pkg::___finch_bindgen___pkg___class___Widget",
               comments := Option.none,
               new := Option.some
                 { class_name := "Widget",
                   fn_name := "finch::bindgen::pkg::___finch_bindgen___pkg___class___Widget___static___new",
                   c_fn_name := "___finch_bindgen___pkg___class___Widget___static___new",
                   arg_names := [], arg_types := [],
                   comments := Option.none },
               drop := Option.none, statics := [], methods := [],
               getters := [], setters := [] })] },
         []) := rfl

/-- Lookup after a conditional insertion: the stored value when the key was
already present, the inserted one otherwise. -/
theorem lookupClass_entryOrInsert (cs : List (String × FinchClass))
    (k : String) (v : FinchClass) :
    lookupClass (entryOrInsert cs k v) k =
      Option.some ((lookupClass cs k).getD v) := by
  unfold lookupClass entryOrInsert
  cases hfind : cs.find? (fun p => p.1 == k) with
  | some p => simp [hfind]
  | none => simp [hfind, List.find?_append]

/-- Conditional insertion at a present key changes nothing. -/
theorem entryOrInsert_of_present (cs : List (String × FinchClass))
    (k : String) (v cls : FinchClass)
    (h : lookupClass cs k = Option.some cls) : entryOrInsert cs k v = cs := by
  unfold lookupClass at h
  unfold entryOrInsert
  cases hfind : cs.find? (fun p => p.1 == k) with
  | some p => simp [hfind]
  | none => rw [hfind] at h; simp at h

/-- Normal form of an eligible type-alias declaration: a conditional
insertion of a fresh descriptor. -/
theorem process_alias_eligible (s : ParserState) (hf : s.in_finch = true)
    (hi : s.in_internal = true) (ns : String)
    (hns : s.namespace_ = Option.some ns)
    (name dn : String) (comment : Option String)
    (hpre : hasFinchPrefix name = true)
    (h2 : (splitU name).get? 2 = Option.some ns)
    (h3 : (splitU name).get? 3 = Option.some "class")
    (X : String) (h4 : (splitU name).get? 4 = Option.some X) :
    process_entity s (.typeAliasDecl name dn comment) =
      Option.some
        ({ s with
            classes := entryOrInsert s.classes X
              (FinchClass.make X ("finch::bindgen::" ++ ns ++ "::" ++ dn)
                comment) },
         []) := by
  unfold process_entity
  simp only [hf, hi, hpre, h2, hns, h3, h4, Bool.not_true, Bool.or_self,
    Bool.false_eq_true, if_false]
  simp

/-- C6: an eligible type-alias declaration whose class name is already in the
table is a no-op on the whole state (existing descriptor untouched), and
processing the same type-alias declaration twice equals processing it once. -/
theorem C6_alias_insert_idempotent (s : ParserState) (hf : s.in_finch = true)
    (hi : s.in_internal = true) (ns : String)
    (hns : s.namespace_ = Option.some ns)
    (name dn : String) (comment : Option String)
    (hpre : hasFinchPrefix name = true)
    (h2 : (splitU name).get? 2 = Option.some ns)
    (h3 : (splitU name).get? 3 = Option.some "class")
    (X : String) (h4 : (splitU name).get? 4 = Option.some X) :
    (∀ cls, lookupClass s.classes X = Option.some cls →
      process_entity s (.typeAliasDecl name dn comment) =
        Option.some (s, [])) ∧
    (∀ s1 w, process_entity s (.typeAliasDecl name dn comment) =
        Option.some (s1, w) →
      process_entity s1 (.typeAliasDecl name dn comment) =
        Option.some (s1, w)) := by
  have hrun := process_alias_eligible s hf hi ns hns name dn comment hpre h2 h3 X h4
  constructor
  · intro cls hcls
    rw [hrun, entryOrInsert_of_present s.classes X _ cls hcls]
  · intro s1 w h
    rw [hrun] at h
    injection h with h1
    injection h1 with hs1 hw
    subst hs1
    subst hw
    have hlook :
        lookupClass
          (entryOrInsert s.classes X
            (FinchClass.make X ("finch::bindgen::" ++ ns ++ "::" ++ dn)
              comment)) X =
          Option.some ((lookupClass s.classes X).getD
            (FinchClass.make X ("finch::bindgen::" ++ ns ++ "::" ++ dn)
              comment)) :=
      lookupClass_entryOrInsert s.classes X _
    have hrun2 := process_alias_eligible
      ({ s with
          classes := entryOrInsert s.classes X
            (FinchClass.make X ("finch::bindgen::" ++ ns ++ "::" ++ dn)
              comment) })
      hf hi ns hns name dn comment hpre h2 h3 X h4
    rw [hrun2, entryOrInsert_of_present _ X _ _ hlook]

/-- Witness for C6: re-processing the `Widget` alias after it has been
inserted leaves the state unchanged. -/
theorem C6_witness :
    process_entity
      { in_finch := true, in_internal := true,
        namespace_ := Option.some "pkg",
        classes := [("Widget",
          FinchClass.make "Widget"
            "finch::bindgen::pkg::___finch_bindgen___pkg___class___Widget"
            Option.none)] }
      (.typeAliasDecl "___finch_bindgen___pkg___class___Widget"
        "___finch_bindgen___pkg___class___Widget" Option.none) =
      Option.some
        ({ in_finch := true, in_internal := true,
           namespace_ := Option.some "pkg",
           classes := [("Widget",
             FinchClass.make "Widget"
               "finch::bindgen::pkg::___finch_bindgen___pkg___class___Widget"
               Option.none)] },
         []) :=
  (C6_alias_insert_idempotent
      { in_finch := true, in_internal := true,
        namespace_ := Option.some "pkg", classes := [] }
      rfl rfl "pkg" rfl
      "___finch_bindgen___pkg___class___Widget"
      "___finch_bindgen___pkg___class___Widget" Option.none
      rfl rfl rfl "Widget" rfl).2 _ [] rfl

/-- Slot assignment folded over a list: the last element wins, otherwise the
previous slot value is kept. -/
def lastSlot {α : Type} (l : List α) (d : Option α) : Option α :=
  match l with
  | [] => d
  | x :: xs => lastSlot xs (Option.some x)

theorem lastSlot_append {α : Type} (l1 l2 : List α) (d : Option α) :
    lastSlot (l1 ++ l2) d = lastSlot l2 (lastSlot l1 d) := by
  induction l1 generalizing d with
  | nil => rfl
  | cons x xs ih => exact ih (Option.some x)

/-- First-match search after `updateClass`: the found entry becomes `(k, v)`
exactly when a matching entry was already there. -/
theorem find?_updateClass (cs : List (String × FinchClass)) (k : String)
    (v : FinchClass) :
    (updateClass cs k v).find? (fun p => p.1 == k) =
      (cs.find? (fun p => p.1 == k)).map (fun _ => (k, v)) := by
  induction cs with
  | nil => rfl
  | cons hd rest ih =>
    unfold updateClass
    simp only [List.map_cons]
    cases hpk : (hd.1 == k) with
    | true =>
      rw [if_pos rfl]
      rw [List.find?_cons_of_pos (p := fun q : String × FinchClass => q.1 == k) _ (by simp),
        List.find?_cons_of_pos (p := fun q : String × FinchClass => q.1 == k) _ hpk]
      rfl
    | false =>
      rw [if_neg (by simp)]
      rw [List.find?_cons_of_neg (p := fun q : String × FinchClass => q.1 == k) _ (by simp [hpk]),
        List.find?_cons_of_neg (p := fun q : String × FinchClass => q.1 == k) _ (by simp [hpk])]
      exact ih

/-- Lookup at the key just written through `updateClass`. -/
theorem lookupClass_updateClass (cs : List (String × FinchClass))
    (k : String) (v : FinchClass) :
    lookupClass (updateClass cs k v) k =
      (lookupClass cs k).map (fun _ => v) := by
  unfold lookupClass
  rw [find?_updateClass]
  cases cs.find? (fun p => p.1 == k) <;> rfl

/-- Qualified logical name built by the function-declaration arm. -/
def qualName (ns n : String) : String := "finch::bindgen::" ++ ns ++ "::" ++ n

/-- Member decoded as a destructor from a function declaration, if its
category field says `drop`. -/
def decodedDrop (ns X : String) : Entity → Option FinchDrop
  | .functionDecl n _ _ _ =>
    match (splitU n).get? 5 with
    | Option.some p5 =>
      if p5 = "drop" then
        Option.some { class_name := X, fn_name := qualName ns n, c_fn_name := n }
      else Option.none
    | Option.none => Option.none
  | _ => Option.none

/-- Member decoded as a method (plain or consuming) from a function
declaration. -/
def decodedMethod (ns X : String) : Entity → Option FinchMethod
  | .functionDecl n args rt c =>
    match (splitU n).get? 5, (splitU n).get? 6 with
    | Option.some p5, Option.some p6 =>
      if p5 = "method" then
        FinchMethod.new X p6 (qualName ns n) n false args rt c
      else if p5 = "method_consume" then
        FinchMethod.new X p6 (qualName ns n) n true args rt c
      else Option.none
    | _, _ => Option.none
  | _ => Option.none

/-- Member decoded as a constructor (`static` category, name `new`). -/
def decodedNew (ns X : String) : Entity → Option FinchNew
  | .functionDecl n args _ c =>
    match (splitU n).get? 5, (splitU n).get? 6 with
    | Option.some p5, Option.some p6 =>
      if p5 = "static" then
        if p6 = "new" then
          Option.some (FinchNew.new X (qualName ns n) n args c)
        else Option.none
      else Option.none
    | _, _ => Option.none
  | _ => Option.none

/-- Member decoded as a static function (`static` category, name other than
`new`). -/
def decodedStatic (ns X : String) : Entity → Option FinchStatic
  | .functionDecl n args rt c =>
    match (splitU n).get? 5, (splitU n).get? 6 with
    | Option.some p5, Option.some p6 =>
      if p5 = "static" then
        if p6 = "new" then Option.none
        else Option.some (FinchStatic.new X p6 (qualName ns n) n args rt c)
      else Option.none
    | _, _ => Option.none
  | _ => Option.none

/-- Member decoded as a getter. -/
def decodedGetter (ns X : String) : Entity → Option FinchGetter
  | .functionDecl n _ rt c =>
    match (splitU n).get? 5, (splitU n).get? 6 with
    | Option.some p5, Option.some p6 =>
      if p5 = "getter" then
        Option.some (FinchGetter.new X p6 (qualName ns n) n rt c)
      else Option.none
    | _, _ => Option.none
  | _ => Option.none

/-- Member decoded as a setter. -/
def decodedSetter (ns X : String) : Entity → Option FinchSetter
  | .functionDecl n args _ c =>
    match (splitU n).get? 5, (splitU n).get? 6 with
    | Option.some p5, Option.some p6 =>
      if p5 = "setter" then
        FinchSetter.new X p6 (qualName ns n) n args c
      else Option.none
    | _, _ => Option.none
  | _ => Option.none

/-- A function declaration that decodes, under recorded package namespace
`ns`, to a member of class `X` of one of the six categories, with enough
arguments for its category to be built without a panic. -/
def EligibleMember (ns X : String) : Entity → Prop
  | .functionDecl n args _ _ =>
    hasFinchPrefix n = true ∧
    (splitU n).get? 2 = Option.some ns ∧
    (splitU n).get? 3 = Option.some "class" ∧
    (splitU n).get? 4 = Option.some X ∧
    ∃ p5, (splitU n).get? 5 = Option.some p5 ∧
      (p5 = "drop" ∨
        ∃ p6, (splitU n).get? 6 = Option.some p6 ∧
          ((p5 = "method" ∧ args ≠ []) ∨
           (p5 = "method_consume" ∧ args ≠ []) ∨
           p5 = "static" ∨
           p5 = "getter" ∨
           (p5 = "setter" ∧ 2 ≤ args.length)))
  | _ => False

/-- Effect of one eligible member declaration: class `X` is rewritten in
place, no warning is emitted, and the rewritten descriptor appends the
decoded member of the matching category (or assigns it, for the two slots)
while all other categories are untouched. -/
theorem process_member_step (ns X : String) (s : ParserState)
    (cls : FinchClass) (e : Entity) (he : EligibleMember ns X e)
    (hf : s.in_finch = true) (hi : s.in_internal = true)
    (hns : s.namespace_ = Option.some ns)
    (hcls : lookupClass s.classes X = Option.some cls) :
    ∃ cls1,
      process_entity s e =
        Option.some ({ s with classes := updateClass s.classes X cls1 }, []) ∧
      cls1.methods = cls.methods ++ (decodedMethod ns X e).toList ∧
      cls1.statics = cls.statics ++ (decodedStatic ns X e).toList ∧
      cls1.getters = cls.getters ++ (decodedGetter ns X e).toList ∧
      cls1.setters = cls.setters ++ (decodedSetter ns X e).toList ∧
      cls1.new = lastSlot (decodedNew ns X e).toList cls.new ∧
      cls1.drop = lastSlot (decodedDrop ns X e).toList cls.drop := by
  cases e with
  | translationUnit ch => exact he.elim
  | namespaceE dn ch => exact he.elim
  | unexposedDecl ch => exact he.elim
  | typeAliasDecl a b c => exact he.elim
  | other => exact he.elim
  | functionDecl n args rt comment =>
    obtain ⟨hpre, h2, h3, h4, p5, h5, hcat⟩ := he
    rcases hcat with h5d | ⟨p6, h6, hcat⟩
    · subst h5d
      refine ⟨({ cls with drop := Option.some ⟨X, qualName ns n, n⟩ }),
        ?_, ?_, ?_, ?_, ?_, ?_, ?_⟩
      · unfold process_entity
        simp only [hf, hi, hpre, h2, hns, h3, h4, hcls, h5, Bool.not_true,
          Bool.or_self, Bool.false_eq_true, if_false]
        simp [qualName]
      · cases h6o : (splitU n).get? 6 <;> (simp only [decodedMethod, h5, h6o]; simp)
      · cases h6o : (splitU n).get? 6 <;> (simp only [decodedStatic, h5, h6o]; simp)
      · cases h6o : (splitU n).get? 6 <;> (simp only [decodedGetter, h5, h6o]; simp)
      · cases h6o : (splitU n).get? 6 <;> (simp only [decodedSetter, h5, h6o]; simp)
      · cases h6o : (splitU n).get? 6 <;> (simp only [decodedNew, h5, h6o]; simp [lastSlot])
      · simp only [decodedDrop, h5]; simp [lastSlot]
    · rcases hcat with ⟨h5m, hargs⟩ | ⟨h5m, hargs⟩ | h5s | h5g | ⟨h5s, hlen⟩
      · subst h5m
        obtain ⟨a0, rest, rfl⟩ := List.exists_cons_of_ne_nil hargs
        refine ⟨({ cls with methods := cls.methods ++ (FinchMethod.new X p6 (qualName ns n) n false (a0 :: rest) rt comment).toList }),
          ?_, ?_, ?_, ?_, ?_, ?_, ?_⟩
        · unfold process_entity
          simp only [hf, hi, hpre, h2, hns, h3, h4, hcls, h5, h6,
            Bool.not_true, Bool.or_self, Bool.false_eq_true, if_false]
          simp [qualName, FinchMethod.new]
        · simp only [decodedMethod, h5, h6]; simp
        · simp only [decodedStatic, h5, h6]; simp
        · simp only [decodedGetter, h5, h6]; simp
        · simp only [decodedSetter, h5, h6]; simp
        · simp only [decodedNew, h5, h6]; simp [lastSlot]
        · simp only [decodedDrop, h5]; simp [lastSlot]
      · subst h5m
        obtain ⟨a0, rest, rfl⟩ := List.exists_cons_of_ne_nil hargs
        refine ⟨({ cls with methods := cls.methods ++ (FinchMethod.new X p6 (qualName ns n) n true (a0 :: rest) rt comment).toList }),
          ?_, ?_, ?_, ?_, ?_, ?_, ?_⟩
        · unfold process_entity
          simp only [hf, hi, hpre, h2, hns, h3, h4, hcls, h5, h6,
            Bool.not_true, Bool.or_self, Bool.false_eq_true, if_false]
          simp [qualName, FinchMethod.new]
        · simp only [decodedMethod, h5, h6]; simp
        · simp only [decodedStatic, h5, h6]; simp
        · simp only [decodedGetter, h5, h6]; simp
        · simp only [decodedSetter, h5, h6]; simp
        · simp only [decodedNew, h5, h6]; simp [lastSlot]
        · simp only [decodedDrop, h5]; simp [lastSlot]
      · subst h5s
        by_cases h6n : p6 = "new"
        · subst h6n
          refine ⟨({ cls with new := Option.some (FinchNew.new X (qualName ns n) n args comment) }),
            ?_, ?_, ?_, ?_, ?_, ?_, ?_⟩
          · unfold process_entity
            simp only [hf, hi, hpre, h2, hns, h3, h4, hcls, h5, h6,
              Bool.not_true, Bool.or_self, Bool.false_eq_true, if_false]
            simp [qualName]
          · simp only [decodedMethod, h5, h6]; simp
          · simp only [decodedStatic, h5, h6]; simp
          · simp only [decodedGetter, h5, h6]; simp
          · simp only [decodedSetter, h5, h6]; simp
          · simp only [decodedNew, h5, h6]; simp [lastSlot]
          · simp only [decodedDrop, h5]; simp [lastSlot]
        · refine ⟨({ cls with statics := cls.statics ++ [FinchStatic.new X p6 (qualName ns n) n args rt comment] }),
            ?_, ?_, ?_, ?_, ?_, ?_, ?_⟩
          · unfold process_entity
            simp only [hf, hi, hpre, h2, hns, h3, h4, hcls, h5, h6,
              Bool.not_true, Bool.or_self, Bool.false_eq_true, if_false]
            simp [qualName, h6n]
          · simp only [decodedMethod, h5, h6]; simp
          · simp only [decodedStatic, h5, h6]; simp [h6n]
          · simp only [decodedGetter, h5, h6]; simp
          · simp only [decodedSetter, h5, h6]; simp
          · simp only [decodedNew, h5, h6]; simp [h6n, lastSlot]
          · simp only [decodedDrop, h5]; simp [lastSlot]
      · subst h5g
        refine ⟨({ cls with getters := cls.getters ++ [FinchGetter.new X p6 (qualName ns n) n rt comment] }),
          ?_, ?_, ?_, ?_, ?_, ?_, ?_⟩
        · unfold process_entity
          simp only [hf, hi, hpre, h2, hns, h3, h4, hcls, h5, h6,
            Bool.not_true, Bool.or_self, Bool.false_eq_true, if_false]
          simp [qualName]
        · simp only [decodedMethod, h5, h6]; simp
        · simp only [decodedStatic, h5, h6]; simp
        · simp only [decodedGetter, h5, h6]; simp
        · simp only [decodedSetter, h5, h6]; simp
        · simp only [decodedNew, h5, h6]; simp [lastSlot]
        · simp only [decodedDrop, h5]; simp [lastSlot]
      · subst h5s
        match args, hlen with
        | a0 :: a1 :: rest, _ =>
          refine ⟨({ cls with setters := cls.setters ++ (FinchSetter.new X p6 (qualName ns n) n (a0 :: a1 :: rest) comment).toList }),
            ?_, ?_, ?_, ?_, ?_, ?_, ?_⟩
          · unfold process_entity
            simp only [hf, hi, hpre, h2, hns, h3, h4, hcls, h5, h6,
              Bool.not_true, Bool.or_self, Bool.false_eq_true, if_false]
            simp [qualName, FinchSetter.new]
          · simp only [decodedMethod, h5, h6]; simp
          · simp only [decodedStatic, h5, h6]; simp
          · simp only [decodedGetter, h5, h6]; simp
          · simp only [decodedSetter, h5, h6]; simp
          · simp only [decodedNew, h5, h6]; simp [lastSlot]
          · simp only [decodedDrop, h5]; simp [lastSlot]

/-- C7: over any run of eligible member declarations for one class, the
statics, methods, getters and setters lists accumulate exactly the decoded
members of their category in encounter order, while the constructor and
destructor slots end up holding the last matching declaration (earlier slot
values are overwritten); no warning is emitted along the way. -/
theorem C7_member_accumulation (ns X : String) (es : List Entity)
    (hall : ∀ e ∈ es, EligibleMember ns X e)
    (s : ParserState) (cls : FinchClass)
    (hf : s.in_finch = true) (hi : s.in_internal = true)
    (hns : s.namespace_ = Option.some ns)
    (hcls : lookupClass s.classes X = Option.some cls) :
    ∃ s1 cls1,
      process_list s es = Option.some (s1, []) ∧
      s1.in_finch = true ∧ s1.in_internal = true ∧
      s1.namespace_ = Option.some ns ∧
      lookupClass s1.classes X = Option.some cls1 ∧
      cls1.methods = cls.methods ++ es.filterMap (decodedMethod ns X) ∧
      cls1.statics = cls.statics ++ es.filterMap (decodedStatic ns X) ∧
      cls1.getters = cls.getters ++ es.filterMap (decodedGetter ns X) ∧
      cls1.setters = cls.setters ++ es.filterMap (decodedSetter ns X) ∧
      cls1.new = lastSlot (es.filterMap (decodedNew ns X)) cls.new ∧
      cls1.drop = lastSlot (es.filterMap (decodedDrop ns X)) cls.drop := by
  induction es generalizing s cls with
  | nil =>
    exact ⟨s, cls, rfl, hf, hi, hns, hcls, by simp, by simp, by simp, by simp,
      rfl, rfl⟩
  | cons e rest ih =>
    obtain ⟨cls1, hrun, hm, hst, hg, hse, hnew, hdrop⟩ :=
      process_member_step ns X s cls e (hall e (by simp)) hf hi hns hcls
    have hlook1 :
        lookupClass (updateClass s.classes X cls1) X = Option.some cls1 := by
      rw [lookupClass_updateClass, hcls]
      rfl
    obtain ⟨s2, cls2, hrun2, hf2, hi2, hns2, hlook2, hm2, hst2, hg2, hse2,
        hnew2, hdrop2⟩ :=
      ih (fun e he => hall e (by simp [he]))
        ({ s with classes := updateClass s.classes X cls1 }) cls1
        hf hi hns hlook1
    refine ⟨s2, cls2, ?_, hf2, hi2, hns2, hlook2, ?_, ?_, ?_, ?_, ?_, ?_⟩
    · unfold process_list
      simp only [hrun, hrun2]
      rfl
    · rw [hm2, hm]
      cases hd : decodedMethod ns X e <;>
        simp [List.filterMap_cons, hd]
    · rw [hst2, hst]
      cases hd : decodedStatic ns X e <;>
        simp [List.filterMap_cons, hd]
    · rw [hg2, hg]
      cases hd : decodedGetter ns X e <;>
        simp [List.filterMap_cons, hd]
    · rw [hse2, hse]
      cases hd : decodedSetter ns X e <;>
        simp [List.filterMap_cons, hd]
    · rw [hnew2, hnew]
      cases hd : decodedNew ns X e <;>
        simp [List.filterMap_cons, hd, lastSlot]
    · rw [hdrop2, hdrop]
      cases hd : decodedDrop ns X e <;>
        simp [List.filterMap_cons, hd, lastSlot]

/-- A method declaration for class `Widget` used by the C7 witness. -/
def wMethodDecl : Entity :=
  .functionDecl "___finch_bindgen___pkg___class___Widget___method___poke"
    [argRecv] voidT Option.none

/-- A destructor declaration for class `Widget` used by the C7 witness. -/
def wDropDecl : Entity :=
  .functionDecl "___finch_bindgen___pkg___class___Widget___drop"
    [argRecv] voidT Option.none

/-- The fresh `Widget` descriptor used by the C7 witness. -/
def wClass : FinchClass := FinchClass.make "Widget" "w" Option.none

/-- A state with `Widget` already inserted, used by the C7 witness. -/
def wState : ParserState :=
  { in_finch := true, in_internal := true, namespace_ := Option.some "pkg",
    classes := [("Widget", wClass)] }

/-- Witness for C7 on a concrete two-declaration run (one method, then one
destructor). -/
theorem C7_witness :
    ∃ s1 cls1,
      process_list wState [wMethodDecl, wDropDecl] = Option.some (s1, []) ∧
      s1.in_finch = true ∧ s1.in_internal = true ∧
      s1.namespace_ = Option.some "pkg" ∧
      lookupClass s1.classes "Widget" = Option.some cls1 ∧
      cls1.methods = wClass.methods ++
        [wMethodDecl, wDropDecl].filterMap (decodedMethod "pkg" "Widget") ∧
      cls1.statics = wClass.statics ++
        [wMethodDecl, wDropDecl].filterMap (decodedStatic "pkg" "Widget") ∧
      cls1.getters = wClass.getters ++
        [wMethodDecl, wDropDecl].filterMap (decodedGetter "pkg" "Widget") ∧
      cls1.setters = wClass.setters ++
        [wMethodDecl, wDropDecl].filterMap (decodedSetter "pkg" "Widget") ∧
      cls1.new = lastSlot
        ([wMethodDecl, wDropDecl].filterMap (decodedNew "pkg" "Widget"))
        wClass.new ∧
      cls1.drop = lastSlot
        ([wMethodDecl, wDropDecl].filterMap (decodedDrop "pkg" "Widget"))
        wClass.drop :=
  C7_member_accumulation "pkg" "Widget" [wMethodDecl, wDropDecl]
    (by
      intro e he
      cases he with
      | head =>
        exact ⟨rfl, rfl, rfl, rfl, "method", rfl,
          Or.inr ⟨"poke", rfl, Or.inl ⟨rfl, by simp [wMethodDecl]⟩⟩⟩
      | tail _ h2 =>
        cases h2 with
        | head => exact ⟨rfl, rfl, rfl, rfl, "drop", rfl, Or.inl rfl⟩
        | tail _ h3 => cases h3)
    wState wClass rfl rfl rfl rfl

/-- Witness for C3: a declaration outside the root namespace is ignored,
and a prefixed declaration with no recorded package namespace aborts. -/
theorem C3_witness :
    process_entity
      { in_finch := false, in_internal := true,
        namespace_ := Option.none, classes := [] }
      (.typeAliasDecl "x" "x" Option.none) =
      Option.some
        ({ in_finch := false, in_internal := true,
           namespace_ := Option.none, classes := [] }, []) ∧
    process_entity
      { in_finch := true, in_internal := true,
        namespace_ := Option.none, classes := [] }
      (.functionDecl "___finch_bindgen___pkg___class___W" [] voidT
        Option.none) = Option.none :=
  ⟨((C3_unscoped_declarations
      { in_finch := false, in_internal := true,
        namespace_ := Option.none, classes := [] }
      "x" "x" Option.none [] voidT).1 (Or.inl rfl)).1,
   ((C3_unscoped_declarations
      { in_finch := true, in_internal := true,
        namespace_ := Option.none, classes := [] }
      "___finch_bindgen___pkg___class___W" "W" Option.none [] voidT).2
      rfl rfl rfl (by decide)).2⟩
